import Mathlib

/-!
Verification of the `inject` command of the rhiza repository
(`src/rhiza/commands/inject.py`).

The command is a one-shot file injector: it validates that the target is a
git repository, ensures a YAML manifest at `<target>/.github/template.yml`
(writing a default one when it is absent), loads the manifest, performs a
shallow sparse clone of the remote template repository into a fresh
temporary directory, copies each include path from the checkout into the
target (skipping existing destinations unless `force`), and removes the
temporary directory in a `finally` block.

Shallow-embedding conventions, chosen to mirror the Python source:

* A filesystem tree is a flat association list from paths (component lists)
  to file contents, together with a list of explicitly created directories.
  A path is a directory when it was explicitly created or when some file
  lives strictly below it; this matches what `Path.is_dir` observes for the
  trees the program manipulates (git checkouts track no empty directories).
* POSIX path strings are modelled as component lists (`FsPath`), so the
  Python literal "/.editorconfig" is the single component ".editorconfig"
  relative to each root.  (For include entries that actually live inside
  both trees — the case all claims quantify over — `tmp_dir / p` and
  `target / p` are exactly the scratch- and target-relative locations of
  the same component list.)
* The YAML layer (`yaml.safe_load` / `yaml.dump`) is modelled by storing a
  manifest-shaped YAML document as a `Content.yaml` value; a manifest file
  holding anything else is modelled as a load failure.  The YAML key
  `include` is spelled `includePaths` (`include` is a Lean keyword);
  `config.get("include", [])` makes a missing key indistinguishable from
  an empty list, so an absent key is modelled as `[]`, and the two
  optional string fields are `Option String`.
* The external `git` processes (clone, sparse-checkout init/set) and
  OS-level copy faults are an explicit environment `GitEnv`: the clone
  either fails or produces a checkout tree, the two sparse-checkout calls
  either succeed or raise, and an optional fault index models an OS error
  raised while processing that include entry.
* `logger` calls that the specification's claims talk about (per-path
  skip/add warnings, fatal errors) and the external actions (mkdtemp,
  clone, scratch removal) are recorded as an event trace.
-/

/-- A filesystem path, as a list of components relative to a root. -/
abbrev FsPath := List String

/-- The manifest parsed from `.github/template.yml`: the fields read by
`inject` via `config.get`.  The YAML key `include` is `includePaths`. -/
structure Manifest where
  templateRepository : Option String
  templateBranch : Option String
  includePaths : List FsPath
deriving DecidableEq

/-- Content stored in a file: ordinary bytes, or a manifest-shaped YAML
document (the model of the YAML serialization layer). -/
inductive Content where
  | raw (s : String)
  | yaml (m : Manifest)
deriving DecidableEq

/-- A filesystem tree: an association list of files (first binding wins)
plus the list of explicitly created directories. -/
structure FS where
  files : List (FsPath × Content)
  dirs : List FsPath
deriving DecidableEq

/-- First-binding association lookup among the files of a tree. -/
def lookupFile (p : FsPath) : List (FsPath × Content) → Option Content
  | [] => none
  | q :: rest => if q.1 = p then some q.2 else lookupFile p rest

/-- Content of the file at `p`, if any. -/
def FS.read (fs : FS) (p : FsPath) : Option Content :=
  lookupFile p fs.files

/-- `p` is a file of the tree. -/
def FS.isFile (fs : FS) (p : FsPath) : Prop :=
  fs.read p ≠ none

instance (fs : FS) (p : FsPath) : Decidable (fs.isFile p) := by
  unfold FS.isFile; infer_instance

/-- `p` is a directory: explicitly created (or an ancestor of one), or
some file lives strictly below it.  This is what `Path.is_dir` observes. -/
def FS.isDir (fs : FS) (p : FsPath) : Prop :=
  (∃ d ∈ fs.dirs, p <+: d) ∨ (∃ q ∈ fs.files, p <+: q.1 ∧ p ≠ q.1)

instance (fs : FS) (p : FsPath) : Decidable (fs.isDir p) := by
  unfold FS.isDir; infer_instance

/-- `Path.exists`: a file or a directory is at `p`. -/
def FS.pathExists (fs : FS) (p : FsPath) : Prop :=
  fs.isFile p ∨ fs.isDir p

instance (fs : FS) (p : FsPath) : Decidable (fs.pathExists p) := by
  unfold FS.pathExists; infer_instance

/-- `shutil.rmtree p`: drop every file and directory at or below `p`. -/
def FS.rmtree (fs : FS) (p : FsPath) : FS :=
  ⟨fs.files.filter (fun q => decide (¬ p <+: q.1)),
   fs.dirs.filter (fun d => decide (¬ p <+: d))⟩

/-- `Path.unlink`: drop the file at `p`. -/
def FS.unlink (fs : FS) (p : FsPath) : FS :=
  ⟨fs.files.filter (fun q => decide (q.1 ≠ p)), fs.dirs⟩

/-- All strict prefixes of a path, from `[]` up to its parent. -/
def strictPrefixes : FsPath → List FsPath
  | [] => []
  | a :: rest => [] :: (strictPrefixes rest).map (a :: ·)

/-- `dst.parent.mkdir(parents=True, exist_ok=True)`: create every ancestor
directory of `p`. -/
def FS.mkdirParents (fs : FS) (p : FsPath) : FS :=
  ⟨fs.files, strictPrefixes p ++ fs.dirs⟩

/-- `open(p, "w")` followed by a full write of `c`. -/
def FS.writeFile (fs : FS) (p : FsPath) (c : Content) : FS :=
  ⟨(p, c) :: fs.files, fs.dirs⟩

/-- `shutil.copytree(tmp_dir / p, target / p)`: copy the whole subtree at
`p` of the checkout into the tree at the same relative location (the two
sides of the copy differ only in their root). -/
def FS.copyTreeFrom (t : FS) (checkout : FS) (p : FsPath) : FS :=
  ⟨checkout.files.filter (fun q => decide (p <+: q.1)) ++ t.files,
   p :: checkout.dirs.filter (fun d => decide (p <+: d)) ++ t.dirs⟩

/-- Log lines and external actions that the specification's claims observe. -/
inductive Event where
  | errorNotARepo
  | createdManifest
  | errorEmptyInclude
  | loadFail
  | mkdtemp
  | gitClone (url : String) (branch : String)
  | warnNotFound (p : FsPath)
  | warnSkipExists (p : FsPath)
  | added (p : FsPath)
  | rmScratch
  | done
deriving DecidableEq

/-- How one run of `inject` terminates. -/
inductive InjectResult where
  | exitOne
  | loadError
  | cloneFailed
  | sparseFailed
  | copyFailed
  | ok
deriving DecidableEq

/-- The external world: the outcome of the `git clone` (the checkout tree
it would produce, or a failure), of the two `git sparse-checkout` calls,
and an optional OS fault raised while processing the include entry with
the given index. -/
structure GitEnv where
  cloneResult : String → String → Option FS
  sparseInitOk : Bool
  sparseSetOk : Bool
  copyFault : Option Nat

/-- Result of one run: the terminal state, the target tree, whether the
scratch directory is still on disk, and the event trace. -/
structure Outcome where
  result : InjectResult
  target : FS
  scratchRemains : Bool
  events : List Event

/-- Manifest location `<target>/.github/template.yml`. -/
def templatePath : FsPath := [".github", "template.yml"]

/-- The default manifest written when `.github/template.yml` is absent
(lines 44-55 of `inject.py`); the "/"-anchored Python literals are single
root-level components. -/
def defaultManifest (branch : String) : Manifest :=
  { templateRepository := some "jebel-quant/rhiza"
    templateBranch := some branch
    includePaths :=
      [[".github"], [".editorconfig"], [".gitignore"],
       [".pre-commit-config.yaml"], ["Makefile"], ["pytest.ini"]] }

/-- The clone URL built by the f-string
`f"https://github.com/{rhiza_repo}.git"`; a missing `template-repository`
renders as the literal text `None`. -/
def repoUrl : Option String → String
  | some r => "https://github.com/" ++ r ++ ".git"
  | none => "https://github.com/None.git"

/-- Lines 122-126 of `inject.py`: remove an existing destination before
copying, recursively when it is a directory. -/
def removeExisting (t : FS) (p : FsPath) : FS :=
  if t.pathExists p then
    (if t.isDir p then t.rmtree p else t.unlink p)
  else t

/-- Lines 128-132 of `inject.py`: `shutil.copytree` for a directory source,
`shutil.copy2` for a file source (the `none` arm is unreachable when the
source exists). -/
def copyFrom (checkout : FS) (t : FS) (p : FsPath) : FS :=
  if checkout.isDir p then t.copyTreeFrom checkout p
  else match checkout.read p with
       | some c => t.writeFile p c
       | none => t

/-- The body of the copy loop (lines 110-134 of `inject.py`) for one
include entry `p`: skip when the source is missing from the checkout or
the destination exists without `force`; otherwise remove an existing
destination, create parents, and copy file or tree.  Returns the new
target tree and the one log line the body emits. -/
def copyStep (checkout : FS) (force : Bool) (t : FS) (p : FsPath) : FS × Event :=
  if ¬ checkout.pathExists p then
    (t, .warnNotFound p)
  else if t.pathExists p ∧ force = false then
    (t, .warnSkipExists p)
  else
    (copyFrom checkout ((removeExisting t p).mkdirParents p) p, .added p)

/-- The copy loop over the include list, threading the target tree and
collecting the per-path log lines; `fault = some i` models an OS error
raised while processing entry `i`, which aborts the loop. -/
def copyPhase (checkout : FS) (force : Bool) (fault : Option Nat) :
    List FsPath → Nat → FS → FS × List Event × Bool
  | [], _, t => (t, [], false)
  | p :: rest, i, t =>
    if fault = some i then (t, [], true)
    else
      let s := copyStep checkout force t p
      let r := copyPhase checkout force fault rest (i + 1) s.1
      (r.1, s.2 :: r.2.1, r.2.2)

/-- Lines 83-137 of `inject.py`: `tempfile.mkdtemp`, the sparse clone and
sparse-checkout configuration, the copy loop, and the `finally` that
removes the scratch directory on every path out of the `try`. -/
def fetchAndCopy (env : GitEnv) (repo : Option String) (rbranch : String)
    (ps : List FsPath) (force : Bool) (t : FS) : Outcome :=
  let url := repoUrl repo
  match env.cloneResult url rbranch with
  | none =>
    ⟨.cloneFailed, t, false, [.mkdtemp, .gitClone url rbranch, .rmScratch]⟩
  | some checkout =>
    if env.sparseInitOk then
      if env.sparseSetOk then
        let r := copyPhase checkout force env.copyFault ps 0 t
        if r.2.2 then
          ⟨.copyFailed, r.1, false,
           .mkdtemp :: .gitClone url rbranch :: (r.2.1 ++ [.rmScratch])⟩
        else
          ⟨.ok, r.1, false,
           .mkdtemp :: .gitClone url rbranch :: (r.2.1 ++ [.rmScratch, .done])⟩
      else ⟨.sparseFailed, t, false, [.mkdtemp, .gitClone url rbranch, .rmScratch]⟩
    else ⟨.sparseFailed, t, false, [.mkdtemp, .gitClone url rbranch, .rmScratch]⟩

/-- Lines 68-74 of `inject.py`: extract the manifest fields (with the
branch argument as fallback for `template-branch`), abort with exit code 1
when the include list is empty, otherwise fetch and copy. -/
def injectLoaded (env : GitEnv) (branch : String) (force : Bool)
    (t : FS) (config : Manifest) : Outcome :=
  if config.includePaths = [] then ⟨.exitOne, t, false, [.errorEmptyInclude]⟩
  else
    fetchAndCopy env config.templateRepository (config.templateBranch.getD branch)
      config.includePaths force t

/-- Prefix the event trace of an outcome with the manifest-creation log. -/
def Outcome.withCreated (o : Outcome) : Outcome :=
  ⟨o.result, o.target, o.scratchRemains, .createdManifest :: o.events⟩

/-- The whole `inject(target, branch, force)` command: git-repository
check, ensure-manifest phase (creating `.github` and a default manifest
when absent), manifest load, and the fetch-and-copy pipeline. -/
def inject (env : GitEnv) (target : FS) (branch : String) (force : Bool) : Outcome :=
  if ¬ target.isDir [".git"] then
    ⟨.exitOne, target, false, [.errorNotARepo]⟩
  else
    let t1 := target.mkdirParents templatePath
    if t1.pathExists templatePath then
      match t1.read templatePath with
      | some (Content.yaml config) => injectLoaded env branch force t1 config
      | _ => ⟨.loadError, t1, false, [.loadFail]⟩
    else
      let t2 := t1.writeFile templatePath (Content.yaml (defaultManifest branch))
      match t2.read templatePath with
      | some (Content.yaml config) =>
        (injectLoaded env branch force t2 config).withCreated
      | _ => ⟨.loadError, t2, false, [.createdManifest, .loadFail]⟩

/-!
### Concrete scenarios

Small closed worlds used to witness the theorems below on runnable inputs
and to exhibit counterexamples.  `demo*` trees carry a `.git` directory
marker and a manifest file; checkouts model the sparse clone contents.
-/

/-- A happy-path manifest: two include entries, a file and a directory. -/
def demoCfg : Manifest :=
  ⟨some "jebel-quant/rhiza", some "main", [["Makefile"], ["docs"]]⟩

/-- A target repository holding the manifest and a local `Makefile`. -/
def demoTarget : FS :=
  ⟨[(templatePath, .yaml demoCfg), (["Makefile"], .raw "local")], [[".git"]]⟩

/-- The corresponding upstream checkout: a `Makefile` and a `docs` tree. -/
def demoCheckout : FS :=
  ⟨[(["Makefile"], .raw "up"), (["docs", "a.md"], .raw "d")], []⟩

/-- An environment whose clone always succeeds with `demoCheckout`. -/
def demoEnv : GitEnv := ⟨fun _ _ => some demoCheckout, true, true, none⟩

/-- Manifest with an empty include list (for the EmptyManifest abort). -/
def demoCfgEmpty : Manifest := ⟨some "jebel-quant/rhiza", some "main", []⟩

/-- Target whose manifest has an empty include list. -/
def demoTargetEmpty : FS := ⟨[(templatePath, .yaml demoCfgEmpty)], [[".git"]]⟩

/-- A bare repository: `.git` exists but no manifest file. -/
def demoTargetBare : FS := ⟨[], [[".git"]]⟩

/-- Manifest naming only a path that does not exist upstream. -/
def demoCfgMissing : Manifest :=
  ⟨some "jebel-quant/rhiza", some "main", [["nope"]]⟩

/-- Target whose manifest names only an upstream-missing path. -/
def demoTargetMissing : FS := ⟨[(templatePath, .yaml demoCfgMissing)], [[".git"]]⟩

/-- Manifest with no `template-repository` field. -/
def demoCfgNoRepo : Manifest := ⟨none, some "dev", [["x"]]⟩

/-- Target whose manifest lacks `template-repository`. -/
def demoTargetNoRepo : FS := ⟨[(templatePath, .yaml demoCfgNoRepo)], [[".git"]]⟩

/-- An environment whose clone always fails. -/
def demoEnvCloneFail : GitEnv := ⟨fun _ _ => none, true, true, none⟩

/-- C1 scenario: the include list nests `.github/foo` inside `.github`,
`.github` exists on both sides, and the target has `.github/bar`. -/
def demoCfgC1 : Manifest :=
  ⟨some "jebel-quant/rhiza", some "main", [[".github"], [".github", "foo"]]⟩

/-- C1 scenario target. -/
def demoTargetC1 : FS :=
  ⟨[(templatePath, .yaml demoCfgC1), ([".github", "bar"], .raw "old")], [[".git"]]⟩

/-- C1 scenario checkout: upstream has `.github/foo` only. -/
def demoCheckoutC1 : FS := ⟨[([".github", "foo"], .raw "x")], []⟩

/-- C1 scenario environment. -/
def demoEnvC1 : GitEnv := ⟨fun _ _ => some demoCheckoutC1, true, true, none⟩

/-- C6 scenario: the manifest includes `.github`, which contains the
manifest itself, and upstream ships a different `.github/template.yml`. -/
def demoCfgC6 : Manifest := ⟨some "jebel-quant/rhiza", some "main", [[".github"]]⟩

/-- C6 scenario target. -/
def demoTargetC6 : FS := ⟨[(templatePath, .yaml demoCfgC6)], [[".git"]]⟩

/-- C6 scenario checkout with its own manifest content at the same path. -/
def demoCheckoutC6 : FS := ⟨[(templatePath, .raw "upstream")], []⟩

/-- C6 scenario environment. -/
def demoEnvC6 : GitEnv := ⟨fun _ _ => some demoCheckoutC6, true, true, none⟩

/-- C7 scenario, first-run manifest: include `.github` only. -/
def demoCfgC7a : Manifest := ⟨some "jebel-quant/rhiza", some "main", [[".github"]]⟩

/-- C7 scenario, upstream manifest: include `Makefile` only. -/
def demoCfgC7b : Manifest := ⟨some "jebel-quant/rhiza", some "main", [["Makefile"]]⟩

/-- C7 scenario checkout: ships its own `.github/template.yml` plus a
`Makefile`. -/
def demoCheckoutC7 : FS :=
  ⟨[(templatePath, .yaml demoCfgC7b), (["Makefile"], .raw "m")], []⟩

/-- C7 scenario target. -/
def demoTargetC7 : FS := ⟨[(templatePath, .yaml demoCfgC7a)], [[".git"]]⟩

/-- C7 scenario environment (upstream unchanged between runs). -/
def demoEnvC7 : GitEnv := ⟨fun _ _ => some demoCheckoutC7, true, true, none⟩

/-! ### Lookup and per-operation read lemmas -/

theorem lookupFile_filter_pos (P : FsPath → Bool) (r : FsPath)
    (l : List (FsPath × Content)) (h : P r = true) :
    lookupFile r (l.filter (fun q => P q.1)) = lookupFile r l := by
  induction l with
  | nil => rfl
  | cons q rest ih =>
    by_cases hq : q.1 = r
    · have hP : P q.1 = true := by rw [hq]; exact h
      rw [List.filter_cons, if_pos hP]
      simp only [lookupFile, hq, if_pos]
    · rw [List.filter_cons]
      by_cases hP : P q.1 = true
      · rw [if_pos hP]; simp [lookupFile, hq, ih]
      · rw [if_neg hP, ih]; simp [lookupFile, hq]

theorem lookupFile_filter_neg (P : FsPath → Bool) (r : FsPath)
    (l : List (FsPath × Content)) (h : P r = false) :
    lookupFile r (l.filter (fun q => P q.1)) = none := by
  induction l with
  | nil => rfl
  | cons q rest ih =>
    rw [List.filter_cons]
    by_cases hP : P q.1 = true
    · have hq : q.1 ≠ r := fun e => by rw [e, h] at hP; exact Bool.false_ne_true hP
      rw [if_pos hP]; simp [lookupFile, hq, ih]
    · rw [if_neg hP, ih]

theorem lookupFile_append_none (r : FsPath) (l m : List (FsPath × Content))
    (h : lookupFile r l = none) : lookupFile r (l ++ m) = lookupFile r m := by
  induction l with
  | nil => rfl
  | cons q rest ih =>
    rw [List.cons_append]
    simp only [lookupFile] at h ⊢
    by_cases hq : q.1 = r
    · rw [if_pos hq] at h; exact absurd h (by simp)
    · rw [if_neg hq] at h ⊢; exact ih h

theorem lookupFile_append_some (r : FsPath) (l m : List (FsPath × Content))
    (c : Content) (h : lookupFile r l = some c) : lookupFile r (l ++ m) = some c := by
  induction l with
  | nil => exact absurd h (by simp [lookupFile])
  | cons q rest ih =>
    rw [List.cons_append]
    simp only [lookupFile] at h ⊢
    by_cases hq : q.1 = r
    · rwa [if_pos hq] at h ⊢
    · rw [if_neg hq] at h ⊢; exact ih h

theorem lookupFile_mem (r : FsPath) (c : Content) :
    ∀ l : List (FsPath × Content), lookupFile r l = some c → (r, c) ∈ l := by
  intro l
  induction l with
  | nil => intro h; exact absurd h (by simp [lookupFile])
  | cons q rest ih =>
    intro h
    simp only [lookupFile] at h
    by_cases hq : q.1 = r
    · rw [if_pos hq] at h
      have hc : q.2 = c := Option.some.inj h
      have hqe : q = (r, c) := Prod.ext hq hc
      rw [← hqe]
      exact List.mem_cons_self _ _
    · rw [if_neg hq] at h
      exact List.mem_cons_of_mem _ (ih h)

theorem read_mem {fs : FS} {r : FsPath} {c : Content}
    (h : fs.read r = some c) : (r, c) ∈ fs.files :=
  lookupFile_mem r c fs.files h

theorem read_rmtree_in {fs : FS} {p r : FsPath} (h : p <+: r) :
    (fs.rmtree p).read r = none :=
  lookupFile_filter_neg (fun x => decide (¬ p <+: x)) r fs.files (by simp [h])

theorem read_rmtree_out {fs : FS} {p r : FsPath} (h : ¬ p <+: r) :
    (fs.rmtree p).read r = fs.read r :=
  lookupFile_filter_pos (fun x => decide (¬ p <+: x)) r fs.files (by simp [h])

theorem read_unlink_self {fs : FS} {p : FsPath} :
    (fs.unlink p).read p = none :=
  lookupFile_filter_neg (fun x => decide (x ≠ p)) p fs.files (by simp)

theorem read_unlink_ne {fs : FS} {p r : FsPath} (h : r ≠ p) :
    (fs.unlink p).read r = fs.read r :=
  lookupFile_filter_pos (fun x => decide (x ≠ p)) r fs.files (by simp [h])

theorem read_writeFile_self {fs : FS} {p : FsPath} {c : Content} :
    (fs.writeFile p c).read p = some c := by
  simp [FS.writeFile, FS.read, lookupFile]

theorem read_writeFile_ne {fs : FS} {p r : FsPath} {c : Content} (h : r ≠ p) :
    (fs.writeFile p c).read r = fs.read r := by
  simp [FS.writeFile, FS.read, lookupFile, Ne.symm h]

theorem read_mkdirParents (fs : FS) (p r : FsPath) :
    (fs.mkdirParents p).read r = fs.read r := rfl

theorem read_copyTree_in_some {t checkout : FS} {p r : FsPath} {c : Content}
    (h : p <+: r) (hc : checkout.read r = some c) :
    (t.copyTreeFrom checkout p).read r = some c :=
  lookupFile_append_some r _ t.files c
    (by rw [lookupFile_filter_pos (fun x => decide (p <+: x)) r checkout.files (by simp [h])]
        exact hc)

theorem read_copyTree_in_none {t checkout : FS} {p r : FsPath}
    (h : p <+: r) (hc : checkout.read r = none) :
    (t.copyTreeFrom checkout p).read r = t.read r :=
  lookupFile_append_none r _ t.files
    (by rw [lookupFile_filter_pos (fun x => decide (p <+: x)) r checkout.files (by simp [h])]
        exact hc)

theorem read_copyTree_out {t checkout : FS} {p r : FsPath} (h : ¬ p <+: r) :
    (t.copyTreeFrom checkout p).read r = t.read r :=
  lookupFile_append_none r _ t.files
    (lookupFile_filter_neg (fun x => decide (p <+: x)) r checkout.files (by simp [h]))

/-! ### Existence lemmas -/

theorem pathExists_of_read_pre {fs : FS} {p r : FsPath} {c : Content}
    (hr : fs.read r = some c) (hpre : p <+: r) : fs.pathExists p := by
  rcases eq_or_ne p r with he | hne
  · subst he
    exact Or.inl (by simp [FS.isFile, hr])
  · exact Or.inr (Or.inr ⟨(r, c), read_mem hr, hpre, hne⟩)

theorem read_none_of_not_isDir {fs : FS} {p r : FsPath}
    (h : ¬ fs.isDir p) (hpre : p <+: r) (hne : p ≠ r) : fs.read r = none := by
  by_contra hc
  obtain ⟨c, hc⟩ := Option.ne_none_iff_exists'.mp hc
  exact h (Or.inr ⟨(r, c), read_mem hc, hpre, hne⟩)

theorem read_none_of_not_exists {fs : FS} {p r : FsPath}
    (h : ¬ fs.pathExists p) (hpre : p <+: r) : fs.read r = none := by
  rcases eq_or_ne p r with he | hne
  · subst he
    by_contra hc
    exact h (Or.inl hc)
  · exact read_none_of_not_isDir (fun hd => h (Or.inr hd)) hpre hne

theorem exists_read_of_not_isDir {fs : FS} {p : FsPath}
    (hex : fs.pathExists p) (hnd : ¬ fs.isDir p) : ∃ c, fs.read p = some c :=
  Option.ne_none_iff_exists'.mp (hex.resolve_right hnd)

/-! ### Lemmas about `removeExisting`, `copyFrom` and `copyStep` -/

theorem read_removeExisting_out {t : FS} {p r : FsPath} (h : ¬ p <+: r) :
    (removeExisting t p).read r = t.read r := by
  have hne : r ≠ p := fun e => h (e ▸ List.prefix_refl p)
  unfold removeExisting
  by_cases h1 : t.pathExists p
  · rw [if_pos h1]
    by_cases h2 : t.isDir p
    · rw [if_pos h2]; exact read_rmtree_out h
    · rw [if_neg h2]; exact read_unlink_ne hne
  · rw [if_neg h1]

theorem read_removeExisting_in {t : FS} {p r : FsPath} (h : p <+: r) :
    (removeExisting t p).read r = none := by
  unfold removeExisting
  by_cases h1 : t.pathExists p
  · rw [if_pos h1]
    by_cases h2 : t.isDir p
    · rw [if_pos h2]; exact read_rmtree_in h
    · rw [if_neg h2]
      rcases eq_or_ne r p with he | hne
      · rw [he]; exact read_unlink_self
      · rw [read_unlink_ne hne]
        exact read_none_of_not_isDir h2 h (Ne.symm hne)
  · rw [if_neg h1]
    exact read_none_of_not_exists h1 h

theorem read_copyFrom_out {checkout t : FS} {p r : FsPath} (h : ¬ p <+: r) :
    (copyFrom checkout t p).read r = t.read r := by
  have hne : r ≠ p := fun e => h (e ▸ List.prefix_refl p)
  unfold copyFrom
  by_cases h1 : checkout.isDir p
  · rw [if_pos h1]; exact read_copyTree_out h
  · rw [if_neg h1]
    cases hc : checkout.read p with
    | none => rfl
    | some c => exact read_writeFile_ne hne

theorem read_copyFrom_in {checkout t : FS} {p r : FsPath}
    (hsrc : checkout.pathExists p) (h : p <+: r)
    (hnone : t.read r = none) :
    (copyFrom checkout t p).read r = checkout.read r := by
  unfold copyFrom
  by_cases h1 : checkout.isDir p
  · rw [if_pos h1]
    cases hc : checkout.read r with
    | none => rw [read_copyTree_in_none h hc, hnone]
    | some c => exact read_copyTree_in_some h hc
  · rw [if_neg h1]
    obtain ⟨c, hc⟩ := exists_read_of_not_isDir hsrc h1
    rw [hc]
    rcases eq_or_ne r p with he | hne
    · subst he; rw [read_writeFile_self, hc]
    · rw [read_writeFile_ne hne, hnone,
          read_none_of_not_isDir h1 h (Ne.symm hne)]

theorem copyStep_skip_notfound {checkout t : FS} {force : Bool} {p : FsPath}
    (h : ¬ checkout.pathExists p) :
    copyStep checkout force t p = (t, .warnNotFound p) := by
  unfold copyStep; rw [if_pos h]

theorem copyStep_skip_exists {checkout t : FS} {p : FsPath}
    (hsrc : checkout.pathExists p) (hdst : t.pathExists p) :
    copyStep checkout false t p = (t, .warnSkipExists p) := by
  unfold copyStep
  rw [if_neg (not_not_intro hsrc), if_pos ⟨hdst, rfl⟩]

theorem copyStep_copies {checkout t : FS} {force : Bool} {p : FsPath}
    (hsrc : checkout.pathExists p)
    (hgo : force = true ∨ ¬ t.pathExists p) :
    copyStep checkout force t p =
      (copyFrom checkout ((removeExisting t p).mkdirParents p) p, .added p) := by
  unfold copyStep
  rw [if_neg (not_not_intro hsrc), if_neg]
  rcases hgo with hf | hd
  · subst hf; simp
  · exact fun hc => hd hc.1

theorem copyStep_frame {checkout t : FS} {force : Bool} {q r : FsPath}
    (h : ¬ q <+: r) :
    ((copyStep checkout force t q).1).read r = t.read r := by
  unfold copyStep
  by_cases h1 : ¬ checkout.pathExists q
  · rw [if_pos h1]
  · rw [if_neg h1]
    by_cases h2 : t.pathExists q ∧ force = false
    · rw [if_pos h2]
    · rw [if_neg h2]
      show (copyFrom checkout ((removeExisting t q).mkdirParents q) q).read r = t.read r
      rw [read_copyFrom_out h, read_mkdirParents, read_removeExisting_out h]

theorem copyStep_sync {checkout t : FS} {q r : FsPath}
    (hsrc : checkout.pathExists q) (hpre : q <+: r) :
    ((copyStep checkout true t q).1).read r = checkout.read r := by
  rw [copyStep_copies hsrc (Or.inl rfl)]
  show (copyFrom checkout ((removeExisting t q).mkdirParents q) q).read r = checkout.read r
  exact read_copyFrom_in hsrc hpre
    (by rw [read_mkdirParents, read_removeExisting_in hpre])

theorem copyStep_pres_sync {checkout t : FS} {q r : FsPath}
    (h : t.read r = checkout.read r) :
    ((copyStep checkout true t q).1).read r = checkout.read r := by
  by_cases hsrc : checkout.pathExists q
  · by_cases hpre : q <+: r
    · exact copyStep_sync hsrc hpre
    · rw [copyStep_frame hpre, h]
  · rw [copyStep_skip_notfound hsrc, h]

theorem mem_files_removeExisting {t : FS} {q : FsPath} {f : FsPath × Content}
    (h : f ∈ t.files) (hno : ¬ q <+: f.1) : f ∈ (removeExisting t q).files := by
  unfold removeExisting
  by_cases h1 : t.pathExists q
  · rw [if_pos h1]
    by_cases h2 : t.isDir q
    · rw [if_pos h2]
      exact List.mem_filter.mpr ⟨h, by simp [hno]⟩
    · rw [if_neg h2]
      have hne : f.1 ≠ q := fun e => hno (by rw [e])
      exact List.mem_filter.mpr ⟨h, by simp [hne]⟩
  · rw [if_neg h1]; exact h

theorem mem_dirs_removeExisting {t : FS} {q d : FsPath}
    (h : d ∈ t.dirs) (hno : ¬ q <+: d) : d ∈ (removeExisting t q).dirs := by
  unfold removeExisting
  by_cases h1 : t.pathExists q
  · rw [if_pos h1]
    by_cases h2 : t.isDir q
    · rw [if_pos h2]
      exact List.mem_filter.mpr ⟨h, by simp [hno]⟩
    · rw [if_neg h2]; exact h
  · rw [if_neg h1]; exact h

theorem mem_files_copyFrom {checkout t : FS} {p : FsPath} {f : FsPath × Content}
    (h : f ∈ t.files) : f ∈ (copyFrom checkout t p).files := by
  unfold copyFrom
  by_cases h1 : checkout.isDir p
  · rw [if_pos h1]; exact List.mem_append_right _ h
  · rw [if_neg h1]
    cases hc : checkout.read p with
    | none => exact h
    | some c => exact List.mem_cons_of_mem _ h

theorem mem_dirs_copyFrom {checkout t : FS} {p d : FsPath}
    (h : d ∈ t.dirs) : d ∈ (copyFrom checkout t p).dirs := by
  unfold copyFrom
  by_cases h1 : checkout.isDir p
  · rw [if_pos h1]
    exact List.mem_cons_of_mem _ (List.mem_append_right _ h)
  · rw [if_neg h1]
    cases hc : checkout.read p with
    | none => exact h
    | some c => exact h

theorem mem_dirs_mkdirParents {t : FS} {p d : FsPath} (h : d ∈ t.dirs) :
    d ∈ (t.mkdirParents p).dirs :=
  List.mem_append_right _ h

theorem isDir_mkdirParents_mono {t : FS} {p g : FsPath} (h : t.isDir g) :
    (t.mkdirParents p).isDir g := by
  rcases h with ⟨d, hd, hg⟩ | ⟨f, hf, hg, hne⟩
  · exact Or.inl ⟨d, List.mem_append_right _ hd, hg⟩
  · exact Or.inr ⟨f, hf, hg, hne⟩

theorem isDir_copyFrom_mono {checkout t : FS} {p g : FsPath} (h : t.isDir g) :
    (copyFrom checkout t p).isDir g := by
  rcases h with ⟨d, hd, hg⟩ | ⟨f, hf, hg, hne⟩
  · exact Or.inl ⟨d, mem_dirs_copyFrom hd, hg⟩
  · exact Or.inr ⟨f, mem_files_copyFrom hf, hg, hne⟩

theorem isDir_copyFrom_above {checkout t : FS} {p g : FsPath}
    (hsrc : checkout.pathExists p) (hg : g <+: p) (hne : g ≠ p) :
    (copyFrom checkout t p).isDir g := by
  unfold copyFrom
  by_cases h1 : checkout.isDir p
  · rw [if_pos h1]
    exact Or.inl ⟨p, List.mem_cons_self _ _, hg⟩
  · rw [if_neg h1]
    obtain ⟨c, hc⟩ := exists_read_of_not_isDir hsrc h1
    rw [hc]
    exact Or.inr ⟨(p, c), List.mem_cons_self _ _, hg, hne⟩

theorem isFile_copyFrom_mono {checkout t : FS} {p r : FsPath}
    (h : t.isFile r) : (copyFrom checkout t p).isFile r := by
  unfold FS.isFile at h ⊢
  unfold copyFrom
  by_cases h1 : checkout.isDir p
  · rw [if_pos h1]
    by_cases hp : p <+: r
    · cases hc : checkout.read r with
      | some c => rw [read_copyTree_in_some hp hc]; simp
      | none => rw [read_copyTree_in_none hp hc]; exact h
    · rw [read_copyTree_out hp]; exact h
  · rw [if_neg h1]
    cases hc : checkout.read p with
    | none => exact h
    | some c =>
      rcases eq_or_ne r p with he | hne
      · subst he; rw [read_writeFile_self]; simp
      · rw [read_writeFile_ne hne]; exact h

theorem copyStep_pres_read_ff {checkout t : FS} {q r : FsPath} {c : Content}
    (h : t.read r = some c) :
    ((copyStep checkout false t q).1).read r = some c := by
  by_cases hsrc : checkout.pathExists q
  · by_cases hdst : t.pathExists q
    · rw [copyStep_skip_exists hsrc hdst]; exact h
    · have hno : ¬ q <+: r := fun hp => hdst (pathExists_of_read_pre h hp)
      rw [copyStep_frame hno]; exact h
  · rw [copyStep_skip_notfound hsrc]; exact h

theorem copyStep_mono_exists {checkout t : FS} {q r : FsPath}
    (h : t.pathExists r) :
    ((copyStep checkout false t q).1).pathExists r := by
  by_cases hsrc : checkout.pathExists q
  · by_cases hdst : t.pathExists q
    · rw [copyStep_skip_exists hsrc hdst]; exact h
    · rw [copyStep_copies hsrc (Or.inr hdst)]
      have hrem : removeExisting t q = t := if_neg hdst
      rw [hrem]
      rcases h with hf | hd
      · exact Or.inl (isFile_copyFrom_mono hf)
      · exact Or.inr (isDir_copyFrom_mono (isDir_mkdirParents_mono hd))
  · rw [copyStep_skip_notfound hsrc]; exact h

theorem copyStep_pres_isDir_out {checkout t : FS} {force : Bool} {q g : FsPath}
    (hq : ¬ q <+: g) (h : t.isDir g) :
    ((copyStep checkout force t q).1).isDir g := by
  by_cases hsrc : checkout.pathExists q
  · by_cases hskip : t.pathExists q ∧ force = false
    · unfold copyStep
      rw [if_neg (not_not_intro hsrc), if_pos hskip]
      exact h
    · have hgo : force = true ∨ ¬ t.pathExists q := by
        cases force with
        | false => exact Or.inr (fun hd => hskip ⟨hd, rfl⟩)
        | true => exact Or.inl rfl
      rw [copyStep_copies hsrc hgo]
      have hgne : g ≠ q := fun e => hq (by rw [e])
      rcases h with ⟨d, hd, hg⟩ | ⟨f, hf, hg, hne⟩
      · by_cases hqd : q <+: d
        · have hgq : g <+: q :=
            (List.prefix_or_prefix_of_prefix hg hqd).resolve_right hq
          exact isDir_copyFrom_above hsrc hgq hgne
        · exact Or.inl ⟨d,
            mem_dirs_copyFrom (mem_dirs_mkdirParents (mem_dirs_removeExisting hd hqd)), hg⟩
      · by_cases hqf : q <+: f.1
        · have hgq : g <+: q :=
            (List.prefix_or_prefix_of_prefix hg hqf).resolve_right hq
          exact isDir_copyFrom_above hsrc hgq hgne
        · exact Or.inr ⟨f,
            mem_files_copyFrom (mem_files_removeExisting hf hqf), hg, hne⟩
  · rw [copyStep_skip_notfound hsrc]; exact h

/-! ### Lemmas about the copy loop -/

theorem copyPhase_cons_eq (checkout : FS) (force : Bool) (fault : Option Nat)
    (p : FsPath) (rest : List FsPath) (i : Nat) (t : FS) (h : fault ≠ some i) :
    copyPhase checkout force fault (p :: rest) i t =
      ((copyPhase checkout force fault rest (i + 1) (copyStep checkout force t p).1).1,
       (copyStep checkout force t p).2 ::
         (copyPhase checkout force fault rest (i + 1) (copyStep checkout force t p).1).2.1,
       (copyPhase checkout force fault rest (i + 1) (copyStep checkout force t p).1).2.2) := by
  conv_lhs => rw [copyPhase]
  rw [if_neg h]

theorem copyPhase_fault_eq (checkout : FS) (force : Bool) (fault : Option Nat)
    (p : FsPath) (rest : List FsPath) (i : Nat) (t : FS) (h : fault = some i) :
    copyPhase checkout force fault (p :: rest) i t = (t, [], true) := by
  unfold copyPhase
  rw [if_pos h]

theorem copyPhase_nofault (checkout : FS) (force : Bool) :
    ∀ (ps : List FsPath) (i : Nat) (t : FS),
      (copyPhase checkout force none ps i t).2.2 = false := by
  intro ps
  induction ps with
  | nil => intro i t; rfl
  | cons p rest ih =>
    intro i t
    rw [copyPhase_cons_eq checkout force none p rest i t (by simp)]
    exact ih (i + 1) _

theorem copyPhase_pres_sync (checkout : FS) :
    ∀ (ps : List FsPath) (fault : Option Nat) (i : Nat) (t : FS) (r : FsPath),
      t.read r = checkout.read r →
      ((copyPhase checkout true fault ps i t).1).read r = checkout.read r := by
  intro ps
  induction ps with
  | nil => intro fault i t r h; exact h
  | cons p rest ih =>
    intro fault i t r h
    by_cases hf : fault = some i
    · rw [copyPhase_fault_eq checkout true fault p rest i t hf]; exact h
    · rw [copyPhase_cons_eq checkout true fault p rest i t hf]
      exact ih fault (i + 1) _ r (copyStep_pres_sync h)

theorem copyPhase_sync (checkout : FS) {p : FsPath} (hsrc : checkout.pathExists p) :
    ∀ (ps : List FsPath) (i : Nat) (t : FS), p ∈ ps → ∀ rel : FsPath,
      ((copyPhase checkout true none ps i t).1).read (p ++ rel) =
        checkout.read (p ++ rel) := by
  intro ps
  induction ps with
  | nil => intro i t hm; exact absurd hm (List.not_mem_nil p)
  | cons q rest ih =>
    intro i t hm rel
    rw [copyPhase_cons_eq checkout true none q rest i t (by simp)]
    rcases List.mem_cons.mp hm with he | hm'
    · subst he
      exact copyPhase_pres_sync checkout rest none (i + 1) _ _
        (copyStep_sync hsrc (List.prefix_append p rel))
    · exact ih (i + 1) _ hm' rel

theorem copyPhase_frame_some (checkout : FS) :
    ∀ (ps : List FsPath) (fault : Option Nat) (i : Nat) (t : FS)
      (r : FsPath) (c : Content), t.read r = some c →
      ((copyPhase checkout false fault ps i t).1).read r = some c := by
  intro ps
  induction ps with
  | nil => intro fault i t r c h; exact h
  | cons p rest ih =>
    intro fault i t r c h
    by_cases hf : fault = some i
    · rw [copyPhase_fault_eq checkout false fault p rest i t hf]; exact h
    · rw [copyPhase_cons_eq checkout false fault p rest i t hf]
      exact ih fault (i + 1) _ r c (copyStep_pres_read_ff h)

theorem copyPhase_frame_out (checkout : FS) (force : Bool) :
    ∀ (ps : List FsPath) (fault : Option Nat) (i : Nat) (t : FS) (r : FsPath),
      (∀ p ∈ ps, ¬ p <+: r) →
      ((copyPhase checkout force fault ps i t).1).read r = t.read r := by
  intro ps
  induction ps with
  | nil => intro fault i t r _; rfl
  | cons p rest ih =>
    intro fault i t r h
    by_cases hf : fault = some i
    · rw [copyPhase_fault_eq checkout force fault p rest i t hf]
    · rw [copyPhase_cons_eq checkout force fault p rest i t hf]
      rw [ih fault (i + 1) _ r (fun q hq => h q (List.mem_cons_of_mem p hq))]
      exact copyStep_frame (h p (List.mem_cons_self p rest))

theorem copyPhase_mono_exists (checkout : FS) :
    ∀ (ps : List FsPath) (fault : Option Nat) (i : Nat) (t : FS) (r : FsPath),
      t.pathExists r →
      ((copyPhase checkout false fault ps i t).1).pathExists r := by
  intro ps
  induction ps with
  | nil => intro fault i t r h; exact h
  | cons p rest ih =>
    intro fault i t r h
    by_cases hf : fault = some i
    · rw [copyPhase_fault_eq checkout false fault p rest i t hf]; exact h
    · rw [copyPhase_cons_eq checkout false fault p rest i t hf]
      exact ih fault (i + 1) _ r (copyStep_mono_exists h)

theorem copyPhase_pres_isDir_out (checkout : FS) (force : Bool) :
    ∀ (ps : List FsPath) (fault : Option Nat) (i : Nat) (t : FS) (g : FsPath),
      (∀ p ∈ ps, ¬ p <+: g) → t.isDir g →
      ((copyPhase checkout force fault ps i t).1).isDir g := by
  intro ps
  induction ps with
  | nil => intro fault i t g _ h; exact h
  | cons p rest ih =>
    intro fault i t g hno h
    by_cases hf : fault = some i
    · rw [copyPhase_fault_eq checkout force fault p rest i t hf]; exact h
    · rw [copyPhase_cons_eq checkout force fault p rest i t hf]
      exact ih fault (i + 1) _ g (fun q hq => hno q (List.mem_cons_of_mem p hq))
        (copyStep_pres_isDir_out (hno p (List.mem_cons_self p rest)) h)

theorem copyPhase_skipmem (checkout : FS) {p : FsPath}
    (hsrc : checkout.pathExists p) :
    ∀ (ps : List FsPath) (i : Nat) (t : FS), p ∈ ps → t.pathExists p →
      Event.warnSkipExists p ∈ (copyPhase checkout false none ps i t).2.1 := by
  intro ps
  induction ps with
  | nil => intro i t hm; exact absurd hm (List.not_mem_nil p)
  | cons q rest ih =>
    intro i t hm hdst
    rw [copyPhase_cons_eq checkout false none q rest i t (by simp)]
    rcases List.mem_cons.mp hm with he | hm'
    · subst he
      have hs : copyStep checkout false t p = (t, .warnSkipExists p) :=
        copyStep_skip_exists hsrc hdst
      rw [hs]
      exact List.mem_cons_self _ _
    · exact List.mem_cons_of_mem _
        (ih (i + 1) _ hm' (copyStep_mono_exists hdst))

theorem copyPhase_notfound_mem (checkout : FS) (force : Bool) {p : FsPath}
    (hsrc : ¬ checkout.pathExists p) :
    ∀ (ps : List FsPath) (i : Nat) (t : FS), p ∈ ps →
      Event.warnNotFound p ∈ (copyPhase checkout force none ps i t).2.1 := by
  intro ps
  induction ps with
  | nil => intro i t hm; exact absurd hm (List.not_mem_nil p)
  | cons q rest ih =>
    intro i t hm
    rw [copyPhase_cons_eq checkout force none q rest i t (by simp)]
    rcases List.mem_cons.mp hm with he | hm'
    · subst he
      rw [copyStep_skip_notfound hsrc]
      exact List.mem_cons_self _ _
    · exact List.mem_cons_of_mem _ (ih (i + 1) _ hm')

theorem copyPhase_allmissing (checkout : FS) (force : Bool) :
    ∀ (ps : List FsPath) (i : Nat) (t : FS),
      (∀ p ∈ ps, ¬ checkout.pathExists p) →
      copyPhase checkout force none ps i t = (t, ps.map Event.warnNotFound, false) := by
  intro ps
  induction ps with
  | nil => intro i t _; rfl
  | cons p rest ih =>
    intro i t h
    rw [copyPhase_cons_eq checkout force none p rest i t (by simp)]
    rw [copyStep_skip_notfound (h p (List.mem_cons_self p rest))]
    rw [ih (i + 1) t (fun q hq => h q (List.mem_cons_of_mem p hq))]
    rfl

theorem copyPhase_run2 (checkout T1 : FS) :
    ∀ (ps : List FsPath) (i : Nat) (t : FS),
      (∀ p ∈ ps, checkout.pathExists p →
        ∀ rel : FsPath, T1.read (p ++ rel) = checkout.read (p ++ rel)) →
      (∀ r, t.read r = T1.read r) →
      ∀ r, ((copyPhase checkout true none ps i t).1).read r = T1.read r := by
  intro ps
  induction ps with
  | nil => intro i t _ hinv r; exact hinv r
  | cons q rest ih =>
    intro i t hpost hinv r
    rw [copyPhase_cons_eq checkout true none q rest i t (by simp)]
    refine ih (i + 1) _ (fun p hp => hpost p (List.mem_cons_of_mem q hp)) ?_ r
    intro r'
    by_cases hsrc : checkout.pathExists q
    · by_cases hqr : q <+: r'
      · obtain ⟨rel, hrel⟩ := hqr
        rw [copyStep_sync hsrc ⟨rel, hrel⟩, ← hrel]
        exact (hpost q (List.mem_cons_self q rest) hsrc rel).symm
      · rw [copyStep_frame hqr]
        exact hinv r'
    · rw [copyStep_skip_notfound hsrc]
      exact hinv r'

/-! ### Unfolding lemmas for the pipeline -/

theorem read_some_pathExists {fs : FS} {r : FsPath} {c : Content}
    (h : fs.read r = some c) : fs.pathExists r :=
  Or.inl (by simp [FS.isFile, h])

theorem length_lt_of_mem_strictPrefixes :
    ∀ {p d : FsPath}, d ∈ strictPrefixes p → d.length < p.length := by
  intro p
  induction p with
  | nil => intro d h; exact absurd h (List.not_mem_nil d)
  | cons a rest ih =>
    intro d h
    rcases List.mem_cons.mp h with he | hm
    · subst he; simp
    · obtain ⟨d', hd', rfl⟩ := List.mem_map.mp hm
      simpa using Nat.succ_lt_succ (ih hd')

theorem not_pathExists_mkdirParents_self {t : FS} {p : FsPath}
    (h : ¬ t.pathExists p) : ¬ (t.mkdirParents p).pathExists p := by
  intro hc
  rcases hc with hf | hd
  · exact h (Or.inl hf)
  · rcases hd with ⟨d, hd, hpd⟩ | ⟨f, hf', hpf, hne⟩
    · rcases List.mem_append.mp hd with hd1 | hd2
      · have hlt := length_lt_of_mem_strictPrefixes hd1
        have hle := hpd.length_le
        omega
      · exact h (Or.inr (Or.inl ⟨d, hd2, hpd⟩))
    · exact h (Or.inr (Or.inr ⟨f, hf', hpf, hne⟩))

theorem inject_eq_loaded {env : GitEnv} {target : FS} {branch : String}
    {force : Bool} {config : Manifest}
    (hgit : target.isDir [".git"])
    (hread : target.read templatePath = some (Content.yaml config)) :
    inject env target branch force =
      injectLoaded env branch force (target.mkdirParents templatePath) config := by
  have hr1 : (target.mkdirParents templatePath).read templatePath
      = some (Content.yaml config) := hread
  have hex : (target.mkdirParents templatePath).pathExists templatePath :=
    read_some_pathExists hr1
  unfold inject
  rw [if_neg (not_not_intro hgit)]
  simp only [hr1, if_pos hex]

theorem inject_eq_created {env : GitEnv} {target : FS} {branch : String}
    {force : Bool}
    (hgit : target.isDir [".git"])
    (hmiss : ¬ target.pathExists templatePath) :
    inject env target branch force =
      (injectLoaded env branch force
        ((target.mkdirParents templatePath).writeFile templatePath
          (Content.yaml (defaultManifest branch)))
        (defaultManifest branch)).withCreated := by
  have hmiss1 : ¬ (target.mkdirParents templatePath).pathExists templatePath :=
    not_pathExists_mkdirParents_self hmiss
  have hr2 : ((target.mkdirParents templatePath).writeFile templatePath
      (Content.yaml (defaultManifest branch))).read templatePath
      = some (Content.yaml (defaultManifest branch)) := read_writeFile_self
  unfold inject
  rw [if_neg (not_not_intro hgit)]
  simp only [hr2, if_neg hmiss1]

theorem injectLoaded_ne {env : GitEnv} {branch : String} {force : Bool}
    {t : FS} {config : Manifest} (h : config.includePaths ≠ []) :
    injectLoaded env branch force t config =
      fetchAndCopy env config.templateRepository (config.templateBranch.getD branch)
        config.includePaths force t := by
  unfold injectLoaded
  rw [if_neg h]

theorem injectLoaded_empty {env : GitEnv} {branch : String} {force : Bool}
    {t : FS} {config : Manifest} (h : config.includePaths = []) :
    injectLoaded env branch force t config = ⟨.exitOne, t, false, [.errorEmptyInclude]⟩ := by
  unfold injectLoaded
  rw [if_pos h]

theorem fetchAndCopy_good {env : GitEnv} {repo : Option String} {rbranch : String}
    {ps : List FsPath} {force : Bool} {t checkout : FS}
    (hclone : env.cloneResult (repoUrl repo) rbranch = some checkout)
    (hinit : env.sparseInitOk = true) (hset : env.sparseSetOk = true)
    (hfault : env.copyFault = none) :
    fetchAndCopy env repo rbranch ps force t =
      ⟨.ok, (copyPhase checkout force none ps 0 t).1, false,
       .mkdtemp :: .gitClone (repoUrl repo) rbranch ::
         ((copyPhase checkout force none ps 0 t).2.1 ++ [.rmScratch, .done])⟩ := by
  unfold fetchAndCopy
  simp only [hclone, hinit, hset, hfault, if_true]
  rw [copyPhase_nofault]
  simp

theorem fetchAndCopy_cloneFail {env : GitEnv} {repo : Option String}
    {rbranch : String} {ps : List FsPath} {force : Bool} {t : FS}
    (hclone : env.cloneResult (repoUrl repo) rbranch = none) :
    fetchAndCopy env repo rbranch ps force t =
      ⟨.cloneFailed, t, false,
       [.mkdtemp, .gitClone (repoUrl repo) rbranch, .rmScratch]⟩ := by
  unfold fetchAndCopy
  simp only [hclone]

theorem fetchAndCopy_result_ne_exitOne (env : GitEnv) (repo : Option String)
    (rbranch : String) (ps : List FsPath) (force : Bool) (t : FS) :
    (fetchAndCopy env repo rbranch ps force t).result ≠ .exitOne := by
  unfold fetchAndCopy
  cases h : env.cloneResult (repoUrl repo) rbranch with
  | none => simp [h]
  | some checkout =>
    simp only [h]
    by_cases hinit : env.sparseInitOk = true
    · by_cases hset : env.sparseSetOk = true
      · simp only [hinit, hset, if_true]
        by_cases hfa : (copyPhase checkout force env.copyFault ps 0 t).2.2 = true
        · simp [hfa]
        · simp [hfa]
      · simp [hinit, hset]
    · simp [hinit]

theorem fetchAndCopy_scratch (env : GitEnv) (repo : Option String)
    (rbranch : String) (ps : List FsPath) (force : Bool) (t : FS) :
    (fetchAndCopy env repo rbranch ps force t).scratchRemains = false ∧
    Event.mkdtemp ∈ (fetchAndCopy env repo rbranch ps force t).events ∧
    Event.rmScratch ∈ (fetchAndCopy env repo rbranch ps force t).events := by
  unfold fetchAndCopy
  cases h : env.cloneResult (repoUrl repo) rbranch with
  | none => simp [h]
  | some checkout =>
    simp only [h]
    by_cases hinit : env.sparseInitOk = true
    · by_cases hset : env.sparseSetOk = true
      · simp only [hinit, hset, if_true]
        by_cases hfa : (copyPhase checkout force env.copyFault ps 0 t).2.2 = true
        · simp [hfa]
        · simp [hfa]
      · simp [hinit, hset]
    · simp [hinit]

theorem inject_notrepo {env : GitEnv} {target : FS} {branch : String}
    {force : Bool} (h : ¬ target.isDir [".git"]) :
    inject env target branch force = ⟨.exitOne, target, false, [.errorNotARepo]⟩ := by
  unfold inject
  rw [if_pos h]

theorem pathExists_mkdirParents_mono {t : FS} {p r : FsPath}
    (h : t.pathExists r) : (t.mkdirParents p).pathExists r := by
  rcases h with hf | hd
  · exact Or.inl hf
  · exact Or.inr (isDir_mkdirParents_mono hd)

theorem injectLoaded_scratch (env : GitEnv) (branch : String) (force : Bool)
    (t : FS) (config : Manifest) :
    (injectLoaded env branch force t config).scratchRemains = false ∧
    (Event.mkdtemp ∈ (injectLoaded env branch force t config).events →
      Event.rmScratch ∈ (injectLoaded env branch force t config).events) := by
  unfold injectLoaded
  by_cases h : config.includePaths = []
  · rw [if_pos h]
    exact ⟨rfl, by simp⟩
  · rw [if_neg h]
    obtain ⟨hs, _, hr⟩ := fetchAndCopy_scratch env config.templateRepository
      (config.templateBranch.getD branch) config.includePaths force t
    exact ⟨hs, fun _ => hr⟩

theorem fetchAndCopy_clone_mem (env : GitEnv) (repo : Option String)
    (rbranch : String) (ps : List FsPath) (force : Bool) (t : FS) :
    Event.gitClone (repoUrl repo) rbranch ∈ (fetchAndCopy env repo rbranch ps force t).events := by
  unfold fetchAndCopy
  cases h : env.cloneResult (repoUrl repo) rbranch with
  | none => simp [h]
  | some checkout =>
    simp only [h]
    by_cases hinit : env.sparseInitOk = true
    · by_cases hset : env.sparseSetOk = true
      · simp only [hinit, hset, if_true]
        by_cases hfa : (copyPhase checkout force env.copyFault ps 0 t).2.2 = true
        · simp [hfa]
        · simp [hfa]
      · simp [hinit, hset]
    · simp [hinit]

theorem fetchAndCopy_target_cases (env : GitEnv) (repo : Option String)
    (rbranch : String) (ps : List FsPath) (force : Bool) (t : FS) :
    (fetchAndCopy env repo rbranch ps force t).target = t ∨
    ∃ checkout, env.cloneResult (repoUrl repo) rbranch = some checkout ∧
      (fetchAndCopy env repo rbranch ps force t).target =
        (copyPhase checkout force env.copyFault ps 0 t).1 := by
  unfold fetchAndCopy
  cases h : env.cloneResult (repoUrl repo) rbranch with
  | none => left; simp [h]
  | some checkout =>
    simp only [h]
    by_cases hinit : env.sparseInitOk = true
    · by_cases hset : env.sparseSetOk = true
      · simp only [hinit, hset, if_true]
        by_cases hfa : (copyPhase checkout force env.copyFault ps 0 t).2.2 = true
        · right; exact ⟨checkout, rfl, by simp [hfa]⟩
        · right; exact ⟨checkout, rfl, by simp [hfa]⟩
      · left; simp [hinit, hset]
    · left; simp [hinit]

/-! ### Claim theorems -/

/-- Claim C5: for every target path that is not recognized as a git
repository root (no `.git` directory inside it), `inject` aborts with exit
code 1 and performs no filesystem writes at all: the returned target tree
is the input tree itself, so neither the manifest nor its parent directory
is created, and the only output is the fatal error log. -/
theorem C5_not_a_repo_aborts_without_writes (env : GitEnv) (target : FS)
    (branch : String) (force : Bool) (h : ¬ target.isDir [".git"]) :
    (inject env target branch force).result = .exitOne ∧
    (inject env target branch force).target = target ∧
    (inject env target branch force).events = [.errorNotARepo] := by
  rw [inject_notrepo h]
  exact ⟨rfl, rfl, rfl⟩

/-- Witness for C5 on a concrete empty directory (no `.git`). -/
theorem C5_not_a_repo_aborts_without_writes_witness :
    ¬ (FS.mk [] []).isDir [".git"] ∧
    (inject demoEnv ⟨[], []⟩ "main" false).result = .exitOne ∧
    (inject demoEnv ⟨[], []⟩ "main" false).target = ⟨[], []⟩ ∧
    (inject demoEnv ⟨[], []⟩ "main" false).events = [.errorNotARepo] :=
  ⟨by decide, C5_not_a_repo_aborts_without_writes demoEnv ⟨[], []⟩ "main" false (by decide)⟩

/-- Claim C4: for every manifest whose include list is empty (an absent
key is loaded as the empty list by `config.get("include", [])`), `inject`
aborts with exit code 1 before the scratch workspace is created and before
any fetch is attempted: no `mkdtemp` and no `git clone` event occurs, and
no scratch directory remains. -/
theorem C4_empty_include_aborts_before_fetch (env : GitEnv) (target : FS)
    (branch : String) (force : Bool) (config : Manifest)
    (hgit : target.isDir [".git"])
    (hread : target.read templatePath = some (.yaml config))
    (hempty : config.includePaths = []) :
    (inject env target branch force).result = .exitOne ∧
    Event.mkdtemp ∉ (inject env target branch force).events ∧
    (∀ u b, Event.gitClone u b ∉ (inject env target branch force).events) ∧
    (inject env target branch force).scratchRemains = false := by
  rw [inject_eq_loaded hgit hread, injectLoaded_empty hempty]
  exact ⟨rfl, by simp, fun u b => by simp, rfl⟩

/-- Witness for C4 on a concrete manifest with an empty include list. -/
theorem C4_empty_include_aborts_before_fetch_witness :
    demoTargetEmpty.isDir [".git"] ∧
    demoTargetEmpty.read templatePath = some (.yaml demoCfgEmpty) ∧
    demoCfgEmpty.includePaths = [] ∧
    (inject demoEnv demoTargetEmpty "main" true).result = .exitOne ∧
    Event.mkdtemp ∉ (inject demoEnv demoTargetEmpty "main" true).events :=
  ⟨by decide, by decide, rfl,
   (C4_empty_include_aborts_before_fetch demoEnv demoTargetEmpty "main" true
     demoCfgEmpty (by decide) (by decide) rfl).1,
   (C4_empty_include_aborts_before_fetch demoEnv demoTargetEmpty "main" true
     demoCfgEmpty (by decide) (by decide) rfl).2.1⟩

/-- Claim C2: for every include entry that exists both in the fetched
upstream checkout and in the target, with `force = true` the destination
is removed and re-copied, so that after the run the content at and below
that path equals the upstream content exactly: every path in the entry's
subtree reads in the final target exactly what it reads in the checkout
(byte-for-byte for files, full recursive replacement for directories). -/
theorem C2_force_copies_upstream_exactly (env : GitEnv) (target : FS)
    (branch : String) (config : Manifest) (p : FsPath) (checkout : FS)
    (hgit : target.isDir [".git"])
    (hread : target.read templatePath = some (.yaml config))
    (hclone : env.cloneResult (repoUrl config.templateRepository)
      (config.templateBranch.getD branch) = some checkout)
    (hinit : env.sparseInitOk = true) (hset : env.sparseSetOk = true)
    (hfault : env.copyFault = none)
    (hmem : p ∈ config.includePaths)
    (hsrc : checkout.pathExists p) (_hdst : target.pathExists p) :
    ∀ rel : FsPath,
      (inject env target branch true).target.read (p ++ rel) =
        checkout.read (p ++ rel) := by
  have hne : config.includePaths ≠ [] := List.ne_nil_of_mem hmem
  rw [inject_eq_loaded hgit hread, injectLoaded_ne hne,
      fetchAndCopy_good hclone hinit hset hfault]
  dsimp only
  intro rel
  exact copyPhase_sync checkout hsrc config.includePaths 0
    (target.mkdirParents templatePath) hmem rel

/-- Witness for C2: after a forced run on the concrete scenario, the
`Makefile` entry reads exactly the upstream bytes. -/
theorem C2_force_copies_upstream_exactly_witness :
    demoCheckout.pathExists ["Makefile"] ∧ demoTarget.pathExists ["Makefile"] ∧
    (inject demoEnv demoTarget "main" true).target.read (["Makefile"] ++ []) =
      demoCheckout.read (["Makefile"] ++ []) :=
  ⟨by decide, by decide,
   C2_force_copies_upstream_exactly demoEnv demoTarget "main" demoCfg
     ["Makefile"] demoCheckout (by decide) (by decide) rfl rfl rfl rfl
     (by decide) (by decide) (by decide) []⟩

/-- Claim C3: on every execution path — not-a-repository abort, manifest
load failure, empty-include abort, clone failure, sparse-checkout failure,
a fault during the copy phase, or successful completion — no scratch
workspace remains on disk after the run, and whenever the scratch
directory was created (`mkdtemp` occurred) its removal is also in the
trace: the `finally` block removes it unconditionally. -/
theorem C3_scratch_always_removed (env : GitEnv) (target : FS)
    (branch : String) (force : Bool) :
    (inject env target branch force).scratchRemains = false ∧
    (Event.mkdtemp ∈ (inject env target branch force).events →
      Event.rmScratch ∈ (inject env target branch force).events) := by
  by_cases hgit : ¬ target.isDir [".git"]
  · rw [inject_notrepo hgit]
    exact ⟨rfl, by simp⟩
  · unfold inject
    rw [if_neg hgit]
    by_cases hex : (target.mkdirParents templatePath).pathExists templatePath
    · simp only [if_pos hex]
      cases hr : (target.mkdirParents templatePath).read templatePath with
      | none => simp [hr]
      | some c =>
        cases c with
        | raw s => simp [hr]
        | yaml config =>
          simp only [hr]
          exact injectLoaded_scratch env branch force _ config
    · simp only [if_neg hex, read_writeFile_self]
      obtain ⟨hs, himp⟩ := injectLoaded_scratch env branch force
        ((target.mkdirParents templatePath).writeFile templatePath
          (Content.yaml (defaultManifest branch))) (defaultManifest branch)
      refine ⟨hs, fun hm => ?_⟩
      simp only [Outcome.withCreated, List.mem_cons] at hm ⊢
      rcases hm with hm | hm
      · exact absurd hm (by simp)
      · exact Or.inr (himp hm)

/-- Witness for C3 on a run that actually creates the scratch directory. -/
theorem C3_scratch_always_removed_witness :
    (inject demoEnv demoTarget "main" true).scratchRemains = false ∧
    Event.rmScratch ∈ (inject demoEnv demoTarget "main" true).events :=
  ⟨(C3_scratch_always_removed demoEnv demoTarget "main" true).1,
   (C3_scratch_always_removed demoEnv demoTarget "main" true).2 (by decide)⟩

/-- Claim C9: every include entry missing from the fetched checkout gets a
not-found warning and the run continues; with a reachable upstream the run
still ends ok (exit code 0), and when every include entry is missing
upstream the run succeeds while copying nothing: no `[ADD]` event occurs
and every path of the target reads as before. -/
theorem C9_missing_upstream_is_non_fatal (env : GitEnv) (target : FS)
    (branch : String) (force : Bool) (config : Manifest) (checkout : FS)
    (hgit : target.isDir [".git"])
    (hread : target.read templatePath = some (.yaml config))
    (hclone : env.cloneResult (repoUrl config.templateRepository)
      (config.templateBranch.getD branch) = some checkout)
    (hinit : env.sparseInitOk = true) (hset : env.sparseSetOk = true)
    (hfault : env.copyFault = none)
    (hne : config.includePaths ≠ []) :
    (∀ p ∈ config.includePaths, ¬ checkout.pathExists p →
      Event.warnNotFound p ∈ (inject env target branch force).events) ∧
    (inject env target branch force).result = .ok ∧
    ((∀ p ∈ config.includePaths, ¬ checkout.pathExists p) →
      (∀ p, Event.added p ∉ (inject env target branch force).events) ∧
      ∀ r, (inject env target branch force).target.read r = target.read r) := by
  rw [inject_eq_loaded hgit hread, injectLoaded_ne hne,
      fetchAndCopy_good hclone hinit hset hfault]
  dsimp only
  refine ⟨?_, rfl, ?_⟩
  · intro p hp hnp
    have hmem := copyPhase_notfound_mem checkout force hnp config.includePaths 0
      (target.mkdirParents templatePath) hp
    exact List.mem_cons_of_mem _ (List.mem_cons_of_mem _ (List.mem_append_left _ hmem))
  · intro hall
    rw [copyPhase_allmissing checkout force config.includePaths 0
      (target.mkdirParents templatePath) hall]
    refine ⟨fun p => ?_, fun r => rfl⟩
    simp [List.mem_map]

/-- Witness for C9 on a manifest naming only a nonexistent upstream path. -/
theorem C9_missing_upstream_is_non_fatal_witness :
    ¬ demoCheckout.pathExists ["nope"] ∧
    Event.warnNotFound ["nope"] ∈ (inject demoEnv demoTargetMissing "main" false).events ∧
    (inject demoEnv demoTargetMissing "main" false).result = .ok ∧
    (∀ p, Event.added p ∉ (inject demoEnv demoTargetMissing "main" false).events) := by
  have h := C9_missing_upstream_is_non_fatal demoEnv demoTargetMissing "main" false
    demoCfgMissing demoCheckout (by decide) (by decide) rfl rfl rfl rfl (by decide)
  refine ⟨by decide, ?_, h.2.1, ?_⟩
  · exact h.1 ["nope"] (by decide) (by decide)
  · exact (h.2.2 (by decide)).1

/-- Claim C8: when `.github/template.yml` is absent, `inject` creates it
with the default manifest — the fixed upstream repository
`jebel-quant/rhiza`, the caller-supplied branch, and the fixed non-empty
include list — and then proceeds using exactly that created content, so
the EmptyManifest abort (exit code 1) can never fire on an auto-created
manifest. -/
theorem C8_default_manifest_created_and_used (env : GitEnv) (target : FS)
    (branch : String) (force : Bool)
    (hgit : target.isDir [".git"])
    (hmiss : ¬ target.pathExists templatePath) :
    (defaultManifest branch).templateRepository = some "jebel-quant/rhiza" ∧
    (defaultManifest branch).templateBranch = some branch ∧
    (defaultManifest branch).includePaths ≠ [] ∧
    ((target.mkdirParents templatePath).writeFile templatePath
        (Content.yaml (defaultManifest branch))).read templatePath
      = some (Content.yaml (defaultManifest branch)) ∧
    inject env target branch force =
      (injectLoaded env branch force
        ((target.mkdirParents templatePath).writeFile templatePath
          (Content.yaml (defaultManifest branch))) (defaultManifest branch)).withCreated ∧
    (inject env target branch force).result ≠ .exitOne := by
  have hne : (defaultManifest branch).includePaths ≠ [] := by simp [defaultManifest]
  refine ⟨rfl, rfl, hne, read_writeFile_self, inject_eq_created hgit hmiss, ?_⟩
  rw [inject_eq_created hgit hmiss]
  simp only [Outcome.withCreated]
  rw [injectLoaded_ne hne]
  exact fetchAndCopy_result_ne_exitOne env (defaultManifest branch).templateRepository
    ((defaultManifest branch).templateBranch.getD branch)
    (defaultManifest branch).includePaths force
    ((target.mkdirParents templatePath).writeFile templatePath
      (Content.yaml (defaultManifest branch)))

/-- Witness for C8 on a bare repository without a manifest. -/
theorem C8_default_manifest_created_and_used_witness :
    demoTargetBare.isDir [".git"] ∧ ¬ demoTargetBare.pathExists templatePath ∧
    (defaultManifest "main").templateRepository = some "jebel-quant/rhiza" ∧
    (defaultManifest "main").includePaths ≠ [] ∧
    (inject demoEnv demoTargetBare "main" false).result ≠ .exitOne := by
  have h := C8_default_manifest_created_and_used demoEnv demoTargetBare "main" false
    (by decide) (by decide)
  exact ⟨by decide, by decide, h.1, h.2.2.1, h.2.2.2.2.2⟩

/-- Claim C10: a manifest without a `template-repository` field passes the
only pre-fetch validation (include non-emptiness); the clone is attempted
with the URL rendered from the missing value — literally
`https://github.com/None.git` — after the scratch directory is created,
and a clone failure then surfaces as the fetch error, with the scratch
directory cleaned up. -/
theorem C10_missing_repo_reaches_fetch (env : GitEnv) (target : FS)
    (branch : String) (force : Bool) (config : Manifest)
    (hgit : target.isDir [".git"])
    (hread : target.read templatePath = some (.yaml config))
    (hrepo : config.templateRepository = none)
    (hne : config.includePaths ≠ []) :
    repoUrl none = "https://github.com/None.git" ∧
    Event.mkdtemp ∈ (inject env target branch force).events ∧
    Event.gitClone "https://github.com/None.git" (config.templateBranch.getD branch)
      ∈ (inject env target branch force).events ∧
    (env.cloneResult "https://github.com/None.git" (config.templateBranch.getD branch) = none →
      (inject env target branch force).result = .cloneFailed ∧
      (inject env target branch force).events =
        [.mkdtemp,
         .gitClone "https://github.com/None.git" (config.templateBranch.getD branch),
         .rmScratch]) := by
  rw [inject_eq_loaded hgit hread, injectLoaded_ne hne, hrepo]
  refine ⟨rfl, ?_, ?_, ?_⟩
  · exact (fetchAndCopy_scratch env none (config.templateBranch.getD branch)
      config.includePaths force (target.mkdirParents templatePath)).2.1
  · exact fetchAndCopy_clone_mem env none (config.templateBranch.getD branch)
      config.includePaths force (target.mkdirParents templatePath)
  · intro hcl
    rw [fetchAndCopy_cloneFail hcl]
    exact ⟨rfl, rfl⟩

/-- Witness for C10 with a failing clone environment. -/
theorem C10_missing_repo_reaches_fetch_witness :
    demoCfgNoRepo.templateRepository = none ∧
    Event.gitClone "https://github.com/None.git" "dev"
      ∈ (inject demoEnvCloneFail demoTargetNoRepo "main" false).events ∧
    (inject demoEnvCloneFail demoTargetNoRepo "main" false).result = .cloneFailed := by
  have h := C10_missing_repo_reaches_fetch demoEnvCloneFail demoTargetNoRepo
    "main" false demoCfgNoRepo (by decide) (by decide) rfl (by decide)
  exact ⟨rfl, h.2.2.1, (h.2.2.2 rfl).1⟩

/-- Claim C1 as stated is false: with `force = false` a both-sides-existing
include entry is reported skipped, but its directory content is not left
unchanged by the run — a later include entry nested inside the skipped
directory can add a file within it.  Here `.github` exists in both trees
and is skipped, yet after the run `.github/foo` exists (copied by the
nested entry) where the target had nothing before. -/
theorem C1_counterexample :
    demoTargetC1.pathExists [".github"] ∧
    demoCheckoutC1.pathExists [".github"] ∧
    Event.warnSkipExists [".github"] ∈ (inject demoEnvC1 demoTargetC1 "main" false).events ∧
    (inject demoEnvC1 demoTargetC1 "main" false).result = .ok ∧
    demoTargetC1.read [".github", "foo"] = none ∧
    (inject demoEnvC1 demoTargetC1 "main" false).target.read [".github", "foo"]
      = some (.raw "x") := by decide

/-- Claim C1 (amended): for every include entry existing both in the
fetched checkout and in the target, with `force = false` the entry is
reported skipped and the run continues to completion (exit ok), and no
pre-existing file anywhere in the target is modified or removed — in
particular a skipped file destination keeps its exact content.  (A later
include entry nested inside a skipped directory may still add new files
within it, which is all the counterexample forces us to concede.) -/
theorem C1_skip_keeps_existing_content (env : GitEnv) (target : FS)
    (branch : String) (config : Manifest) (p : FsPath) (checkout : FS)
    (hgit : target.isDir [".git"])
    (hread : target.read templatePath = some (.yaml config))
    (hclone : env.cloneResult (repoUrl config.templateRepository)
      (config.templateBranch.getD branch) = some checkout)
    (hinit : env.sparseInitOk = true) (hset : env.sparseSetOk = true)
    (hfault : env.copyFault = none)
    (hmem : p ∈ config.includePaths)
    (hsrc : checkout.pathExists p) (hdst : target.pathExists p) :
    (inject env target branch false).result = .ok ∧
    Event.warnSkipExists p ∈ (inject env target branch false).events ∧
    ∀ (q : FsPath) (c : Content), target.read q = some c →
      (inject env target branch false).target.read q = some c := by
  have hne : config.includePaths ≠ [] := List.ne_nil_of_mem hmem
  rw [inject_eq_loaded hgit hread, injectLoaded_ne hne,
      fetchAndCopy_good hclone hinit hset hfault]
  dsimp only
  refine ⟨rfl, ?_, ?_⟩
  · have hdst1 : (target.mkdirParents templatePath).pathExists p :=
      pathExists_mkdirParents_mono hdst
    have hm := copyPhase_skipmem checkout hsrc config.includePaths 0
      (target.mkdirParents templatePath) hmem hdst1
    exact List.mem_cons_of_mem _ (List.mem_cons_of_mem _ (List.mem_append_left _ hm))
  · intro q c hq
    exact copyPhase_frame_some checkout config.includePaths none 0
      (target.mkdirParents templatePath) q c hq

/-- Witness for the amended C1: the existing `Makefile` is skipped and
keeps its local bytes. -/
theorem C1_skip_keeps_existing_content_witness :
    (inject demoEnv demoTarget "main" false).result = .ok ∧
    Event.warnSkipExists ["Makefile"] ∈ (inject demoEnv demoTarget "main" false).events ∧
    (inject demoEnv demoTarget "main" false).target.read ["Makefile"]
      = some (.raw "local") := by
  have h := C1_skip_keeps_existing_content demoEnv demoTarget "main" demoCfg
    ["Makefile"] demoCheckout (by decide) (by decide) rfl rfl rfl rfl
    (by decide) (by decide) (by decide)
  exact ⟨h.1, h.2.1, h.2.2 ["Makefile"] (.raw "local") (by decide)⟩

/-- Claim C6 as stated is false: when the manifest's own include list
covers the manifest path (the default include list does: it contains
`.github`) and `force` is true, the copy phase overwrites
`.github/template.yml` with the upstream version.  Here the manifest
exists at the start, yet after the run it holds the upstream bytes. -/
theorem C6_counterexample :
    demoTargetC6.read templatePath = some (.yaml demoCfgC6) ∧
    (inject demoEnvC6 demoTargetC6 "main" true).target.read templatePath
      = some (.raw "upstream") ∧
    (inject demoEnvC6 demoTargetC6 "main" true).target.read templatePath
      ≠ demoTargetC6.read templatePath := by decide

/-- Claim C6 (amended): the ensure/load steps themselves never write an
existing manifest, and its content is unchanged after the whole run
whenever `force` is false, or no include entry's subtree covers the
manifest path; only a forced copy of an include entry containing
`.github/template.yml` (as in the counterexample) can overwrite it. -/
theorem C6_manifest_preserved (env : GitEnv) (target : FS)
    (branch : String) (force : Bool) (config : Manifest)
    (hread : target.read templatePath = some (.yaml config))
    (hsafe : force = false ∨ ∀ p ∈ config.includePaths, ¬ p <+: templatePath) :
    (inject env target branch force).target.read templatePath
      = some (.yaml config) := by
  by_cases hgit : ¬ target.isDir [".git"]
  · rw [inject_notrepo hgit]
    exact hread
  · have hgit1 := not_not.mp hgit
    rw [inject_eq_loaded hgit1 hread]
    unfold injectLoaded
    by_cases hemp : config.includePaths = []
    · rw [if_pos hemp]
      exact hread
    · rw [if_neg hemp]
      rcases fetchAndCopy_target_cases env config.templateRepository
        (config.templateBranch.getD branch) config.includePaths force
        (target.mkdirParents templatePath) with hunch | ⟨checkout, _, heq⟩
      · rw [hunch]
        exact hread
      · rw [heq]
        rcases hsafe with hf | hall
        · subst hf
          exact copyPhase_frame_some checkout config.includePaths env.copyFault 0
            (target.mkdirParents templatePath) templatePath _ hread
        · rw [copyPhase_frame_out checkout force config.includePaths env.copyFault 0
            (target.mkdirParents templatePath) templatePath hall]
          exact hread

/-- Witness for the amended C6: a forced run whose include entries do not
cover the manifest path leaves the manifest intact. -/
theorem C6_manifest_preserved_witness :
    demoTarget.read templatePath = some (.yaml demoCfg) ∧
    (inject demoEnv demoTarget "main" true).target.read templatePath
      = some (.yaml demoCfg) :=
  ⟨by decide,
   C6_manifest_preserved demoEnv demoTarget "main" true demoCfg (by decide)
     (Or.inr (by decide))⟩

/-- Claim C7 as stated is false: when the forced first run overwrites the
manifest with the upstream manifest (include `.github`, upstream ships its
own `.github/template.yml` listing `Makefile`), the second run reads the
new manifest and copies `Makefile`, which the first run did not — the
target trees after the two runs differ although the upstream content never
changed. -/
theorem C7_counterexample :
    (inject demoEnvC7 demoTargetC7 "main" true).target.read ["Makefile"] = none ∧
    (inject demoEnvC7 (inject demoEnvC7 demoTargetC7 "main" true).target
      "main" true).target.read ["Makefile"] = some (.raw "m") := by decide

/-- Claim C7 (amended): running `inject` twice with `force = true` against
an unchanged upstream yields identical target file contents after the
second run, provided no include entry covers the manifest path or the
`.git` marker (so the second run loads the same manifest and passes the
repository check) — exactly the situation the counterexample breaks. -/
theorem C7_force_rerun_is_noop (env : GitEnv) (target : FS)
    (branch : String) (config : Manifest) (checkout : FS)
    (hgit : target.isDir [".git"])
    (hread : target.read templatePath = some (.yaml config))
    (hclone : env.cloneResult (repoUrl config.templateRepository)
      (config.templateBranch.getD branch) = some checkout)
    (hinit : env.sparseInitOk = true) (hset : env.sparseSetOk = true)
    (hfault : env.copyFault = none)
    (hne : config.includePaths ≠ [])
    (hnog : ∀ p ∈ config.includePaths, ¬ p <+: [".git"])
    (hnom : ∀ p ∈ config.includePaths, ¬ p <+: templatePath) :
    ∀ r : FsPath,
      (inject env (inject env target branch true).target branch true).target.read r
        = (inject env target branch true).target.read r := by
  rw [inject_eq_loaded hgit hread, injectLoaded_ne hne,
      fetchAndCopy_good hclone hinit hset hfault]
  dsimp only
  have hT1read : ((copyPhase checkout true none config.includePaths 0
      (target.mkdirParents templatePath)).1).read templatePath
      = some (.yaml config) := by
    rw [copyPhase_frame_out checkout true config.includePaths none 0
      (target.mkdirParents templatePath) templatePath hnom]
    exact hread
  have hT1git : ((copyPhase checkout true none config.includePaths 0
      (target.mkdirParents templatePath)).1).isDir [".git"] :=
    copyPhase_pres_isDir_out checkout true config.includePaths none 0
      (target.mkdirParents templatePath) [".git"] hnog (isDir_mkdirParents_mono hgit)
  rw [inject_eq_loaded hT1git hT1read, injectLoaded_ne hne,
      fetchAndCopy_good hclone hinit hset hfault]
  dsimp only
  intro r
  exact copyPhase_run2 checkout
    ((copyPhase checkout true none config.includePaths 0
      (target.mkdirParents templatePath)).1)
    config.includePaths 0
    (((copyPhase checkout true none config.includePaths 0
      (target.mkdirParents templatePath)).1).mkdirParents templatePath)
    (fun p hp hsrc rel => copyPhase_sync checkout hsrc config.includePaths 0
      (target.mkdirParents templatePath) hp rel)
    (fun _ => rfl) r

/-- Witness for the amended C7 on the happy-path scenario, checked at the
`Makefile` entry. -/
theorem C7_force_rerun_is_noop_witness :
    (∀ p ∈ demoCfg.includePaths, ¬ p <+: templatePath) ∧
    (inject demoEnv (inject demoEnv demoTarget "main" true).target
      "main" true).target.read ["Makefile"]
      = (inject demoEnv demoTarget "main" true).target.read ["Makefile"] :=
  ⟨by decide,
   C7_force_rerun_is_noop demoEnv demoTarget "main" demoCfg demoCheckout
     (by decide) (by decide) rfl rfl rfl rfl (by decide) (by decide)
     (by decide) ["Makefile"]⟩
